import Mathlib

/-!
# Verification of the attitude-estimation core of the smbdmp notebooks

The algorithmic kernel of the repository is the function `solve_attitude`
appearing (identically) in the Gaia star-tracker notebook and in the 2D
star-catalog triangulation notebook:

    def solve_attitude(observed, catalog):
        H = observed.T @ catalog
        U, _, Vt = np.linalg.svd(H)
        R_est = Vt.T @ U.T
        return R.from_matrix(R_est)

together with `radec_to_unitvec` and the synthetic 2D catalog.  This file
embeds those definitions over real matrices.  The singular value
decomposition is an external numerical primitive in the source, so the
solver is embedded relationally: an output is any matrix the code can
produce from a valid SVD triple of the cross-covariance matrix.
-/

namespace Smbdmp

open Matrix Real

noncomputable section

/-- The cross-covariance matrix built inside `solve_attitude`:
`H = observed.T @ catalog`, where `observed` and `catalog` are `m × n`
arrays whose rows are the observed and reference vectors. -/
def attitudeH {m n : ℕ} (observed catalog : Matrix (Fin m) (Fin n) ℝ) :
    Matrix (Fin n) (Fin n) ℝ :=
  observedᵀ * catalog

/-- A singular value decomposition `H = U * S * Vt` in the sense returned by
`np.linalg.svd`: `U` and `Vt` orthogonal, `S` diagonal with nonnegative
entries in descending order. -/
def IsSVD {n : ℕ} (H U S Vt : Matrix (Fin n) (Fin n) ℝ) : Prop :=
  Uᵀ * U = 1 ∧ Vtᵀ * Vt = 1 ∧ (∀ i j, i ≠ j → S i j = 0) ∧
    (∀ i, 0 ≤ S i i) ∧ (∀ i j, i ≤ j → S j j ≤ S i i) ∧ H = U * S * Vt

/-- Relational embedding of `solve_attitude`: `R_est` is a possible output
for the given input iff it equals `Vt.T @ U.T` for some SVD triple
`U, S, Vt` of `H = observed.T @ catalog`.  The code applies no further
processing (in particular no determinant-sign correction) before wrapping
the matrix in `R.from_matrix`. -/
def solve_attitude {m n : ℕ} (observed catalog : Matrix (Fin m) (Fin n) ℝ)
    (R_est : Matrix (Fin n) (Fin n) ℝ) : Prop :=
  ∃ U S Vt, IsSVD (attitudeH observed catalog) U S Vt ∧ R_est = Vtᵀ * Uᵀ

/-- The cross-covariance as written in the spec: the weighted sum of outer
products `Σ wᵢ · observedᵢ ⊗ referenceᵢ`.  Stated from the spec wording to
be compared with `attitudeH`. -/
def specCrossCovariance {m n : ℕ} (w : Fin m → ℝ)
    (observed catalog : Matrix (Fin m) (Fin n) ℝ) : Matrix (Fin n) (Fin n) ℝ :=
  ∑ i, w i • vecMulVec (fun a => observed i a) (fun b => catalog i b)

/-- The planar rotation matrix by angle `t`, the 2D restriction of the
`R.from_euler` rotations used by the notebooks. -/
def rot2 (t : ℝ) : Matrix (Fin 2) (Fin 2) ℝ :=
  !![Real.cos t, -Real.sin t; Real.sin t, Real.cos t]

/-- One row of the output of `radec_to_unitvec`: degrees are converted with
`np.radians` and the usual spherical-to-Cartesian formulas are applied. -/
def radec_to_unitvec (ra_deg dec_deg : ℝ) : Fin 3 → ℝ :=
  ![Real.cos (dec_deg * (Real.pi / 180)) * Real.cos (ra_deg * (Real.pi / 180)),
    Real.cos (dec_deg * (Real.pi / 180)) * Real.sin (ra_deg * (Real.pi / 180)),
    Real.sin (dec_deg * (Real.pi / 180))]

/-- Euclidean norm of a row vector, `np.linalg.norm` on one row. -/
def rowNorm {n : ℕ} (v : Fin n → ℝ) : ℝ :=
  Real.sqrt (∑ j, v j ^ 2)

/-- Row normalization, `v / np.linalg.norm(v)`. -/
def normalizeRow {n : ℕ} (v : Fin n → ℝ) : Fin n → ℝ :=
  fun j => v j / rowNorm v

/-- The synthetic 2D catalog of the triangulation notebook, before the
normalization step. -/
def catalogRaw : Matrix (Fin 5) (Fin 2) ℝ :=
  !![1, 0; 1 / 2, Real.sqrt 3 / 2; -(1 / 2), Real.sqrt 3 / 2; -1, 0; 0, -1]

/-- The 2D catalog after the normalization step
`catalog / np.linalg.norm(catalog, axis=1, keepdims=True)`. -/
def catalogN : Matrix (Fin 5) (Fin 2) ℝ :=
  Matrix.of fun i => normalizeRow (catalogRaw i)

/-- The observed vectors of the 2D scenario: every catalog row rotated by
30 degrees (`R.from_euler` about z with angle 30, i.e. `rot2 (π / 6)`). -/
def observed30 : Matrix (Fin 5) (Fin 2) ℝ :=
  catalogN * (rot2 (Real.pi / 6))ᵀ

/-- Modelled from the spec: the clamping of a dot product into the arccos
domain, `np.clip(x, -1, 1)`.  The residual and diagnostics component is
absent from the source notebooks. -/
def clamp (x : ℝ) : ℝ := max (-1) (min 1 x)

/-- Modelled from the spec: the angular residual of one correspondence,
`arccos(clamp(rotated_observed · reference, -1, 1))`.  The residual and
diagnostics component is absent from the source notebooks. -/
def angularResidual {n : ℕ} (Rm : Matrix (Fin n) (Fin n) ℝ)
    (obs rv : Fin n → ℝ) : ℝ :=
  Real.arccos (clamp (Rm.mulVec obs ⬝ᵥ rv))

/-- Modelled from the spec: the per-correspondence residual list of a
residual report.  The residual and diagnostics component is absent from the
source notebooks. -/
def residualList {n : ℕ} (Rm : Matrix (Fin n) (Fin n) ℝ)
    (pairs : List ((Fin n → ℝ) × (Fin n → ℝ))) : List ℝ :=
  pairs.map fun p => angularResidual Rm p.1 p.2

/-- Modelled from the spec: the aggregate RMS residual over a
correspondence set.  The residual and diagnostics component is absent from
the source notebooks. -/
def rmsResidual {n : ℕ} (Rm : Matrix (Fin n) (Fin n) ℝ)
    (pairs : List ((Fin n → ℝ) × (Fin n → ℝ))) : ℝ :=
  Real.sqrt (((residualList Rm pairs).map fun r => r ^ 2).sum /
    (pairs.length : ℝ))

/-- Concrete observed vectors for the properness counterexample: the unit
rows `(1,0)` and `(0,-1)`. -/
def obs1 : Matrix (Fin 2) (Fin 2) ℝ := !![1, 0; 0, -1]

/-- Concrete reference vectors for the properness counterexample: the unit
rows `(1,0)` and `(0,1)` (not collinear). -/
def cat1 : Matrix (Fin 2) (Fin 2) ℝ := !![1, 0; 0, 1]

/-- Concrete observed vectors for the validation counterexample: the first
row is the zero vector (magnitude 0, below any tolerance). -/
def obs4 : Matrix (Fin 2) (Fin 2) ℝ := !![0, 0; 0, 1]

/-- Concrete reference vectors for the validation counterexample: all rows
equal, hence collinear. -/
def cat4 : Matrix (Fin 2) (Fin 2) ℝ := !![1, 0; 1, 0]

/-- Concrete catalog of three non-collinear unit vectors for the
round-trip counterexample. -/
def cat3 : Matrix (Fin 3) (Fin 2) ℝ := !![1, 0; 0, 1; 3 / 5, 4 / 5]

/-- The proper rotation by 90 degrees used in the round-trip
counterexample, in closed rational form. -/
def Rq : Matrix (Fin 2) (Fin 2) ℝ := !![0, -1; 1, 0]

/-- Observed vectors of the round-trip counterexample: every row of `cat3`
rotated by `Rq`. -/
def obs3 : Matrix (Fin 3) (Fin 2) ℝ := cat3 * Rqᵀ

end

/-! ### Helper lemmas -/

/-- Every output of `solve_attitude` is an orthogonal matrix. -/
lemma solve_orth {m n : ℕ} {observed catalog : Matrix (Fin m) (Fin n) ℝ}
    {R : Matrix (Fin n) (Fin n) ℝ} (h : solve_attitude observed catalog R) :
    Rᵀ * R = 1 := by
  obtain ⟨U, S, Vt, ⟨hU, hVt, -, -, -, -⟩, rfl⟩ := h
  have hVV : Vt * Vtᵀ = 1 := Matrix.mul_eq_one_comm.mp hVt
  have hUU : U * Uᵀ = 1 := Matrix.mul_eq_one_comm.mp hU
  calc (Vtᵀ * Uᵀ)ᵀ * (Vtᵀ * Uᵀ) = U * (Vt * Vtᵀ) * Uᵀ := by
        simp [Matrix.transpose_mul, Matrix.mul_assoc]
    _ = 1 := by rw [hVV, Matrix.mul_one, hUU]

/-- The determinant of every output of `solve_attitude` is `1` or `-1`. -/
lemma solve_det_pm {m n : ℕ} {observed catalog : Matrix (Fin m) (Fin n) ℝ}
    {R : Matrix (Fin n) (Fin n) ℝ} (h : solve_attitude observed catalog R) :
    R.det = 1 ∨ R.det = -1 := by
  have horth := solve_orth h
  have hdet : R.det * R.det = 1 := by
    have := congrArg Matrix.det horth
    simpa [Matrix.det_mul, Matrix.det_transpose] using this
  exact mul_self_eq_one_iff.mp hdet

/-- A matrix vanishing off the diagonal is the diagonal matrix of its
diagonal entries. -/
lemma eq_diagonal_of_offdiag {n : ℕ} {S : Matrix (Fin n) (Fin n) ℝ}
    (hdiag : ∀ i j, i ≠ j → S i j = 0) :
    S = Matrix.diagonal fun i => S i i := by
  ext i j
  by_cases hij : i = j
  · subst hij; simp [Matrix.diagonal]
  · simp [Matrix.diagonal_apply_ne _ hij, hdiag i j hij]

/-- When the cross-covariance matrix has negative determinant, every
output of `solve_attitude` has determinant `-1`: the code performs no
sign correction. -/
lemma solve_det_neg {m n : ℕ} {observed catalog : Matrix (Fin m) (Fin n) ℝ}
    {R : Matrix (Fin n) (Fin n) ℝ} (h : solve_attitude observed catalog R)
    (hH : (attitudeH observed catalog).det < 0) : R.det = -1 := by
  obtain ⟨U, S, Vt, hsvd, rfl⟩ := h
  obtain ⟨hU, hVt, hdiag, hnn, -, hdec⟩ := hsvd
  have hdetU : U.det * U.det = 1 := by
    have := congrArg Matrix.det hU
    simpa [Matrix.det_mul, Matrix.det_transpose] using this
  have hdetVt : Vt.det * Vt.det = 1 := by
    have := congrArg Matrix.det hVt
    simpa [Matrix.det_mul, Matrix.det_transpose] using this
  have hdetS : 0 ≤ S.det := by
    rw [eq_diagonal_of_offdiag hdiag, Matrix.det_diagonal]
    exact Finset.prod_nonneg fun i _ => hnn i
  have hdetH : U.det * S.det * Vt.det < 0 := by
    have := congrArg Matrix.det hdec
    rw [Matrix.det_mul, Matrix.det_mul] at this
    rw [← this]; exact hH
  have hR : (Vtᵀ * Uᵀ).det = Vt.det * U.det := by
    rw [Matrix.det_mul, Matrix.det_transpose, Matrix.det_transpose]
  rw [hR]
  rcases mul_self_eq_one_iff.mp hdetU with hu | hu <;>
    rcases mul_self_eq_one_iff.mp hdetVt with hv | hv <;>
      rw [hu, hv] <;> rw [hu, hv] at hdetH <;> nlinarith

/-- The Gram matrix of the reference rows is positive semidefinite. -/
lemma gram_posSemidef {m n : ℕ} (A : Matrix (Fin m) (Fin n) ℝ) :
    (Aᵀ * A).PosSemidef := by
  have h := Matrix.posSemidef_conjTranspose_mul_self A
  rwa [Matrix.conjTranspose_eq_transpose_of_trivial] at h

/-- When the reference rows span the whole space, their Gram matrix is
positive definite. -/
lemma gram_posDef {m n : ℕ} (A : Matrix (Fin m) (Fin n) ℝ)
    (hspan : ∀ v : Fin n → ℝ, A.mulVec v = 0 → v = 0) :
    (Aᵀ * A).PosDef := by
  refine ⟨(gram_posSemidef A).1, fun x hx => ?_⟩
  have hAx : A.mulVec x ≠ 0 := fun hz => hx (hspan x hz)
  have key : star x ⬝ᵥ (Aᵀ * A).mulVec x = A.mulVec x ⬝ᵥ A.mulVec x := by
    rw [← Matrix.mulVec_mulVec, Matrix.dotProduct_mulVec,
      Matrix.vecMul_transpose]
    simp
  rw [key]
  have hnn : 0 ≤ A.mulVec x ⬝ᵥ A.mulVec x := by
    unfold dotProduct
    exact Finset.sum_nonneg fun i _ => mul_self_nonneg _
  rcases lt_or_eq_of_le hnn with hlt | heq
  · exact hlt
  · exact absurd (Matrix.dotProduct_self_eq_zero.mp heq.symm) hAx

/-- The cross-covariance of a rotated catalog against the catalog is the
rotation times the Gram matrix. -/
lemma attitudeH_rotated {m n : ℕ} (R0 : Matrix (Fin n) (Fin n) ℝ)
    (catalog : Matrix (Fin m) (Fin n) ℝ) :
    attitudeH (catalog * R0ᵀ) catalog = R0 * (catalogᵀ * catalog) := by
  simp [attitudeH, Matrix.transpose_mul, Matrix.mul_assoc]

/-- Central recovery lemma: if the observed rows are the catalog rows
rotated by an orthogonal `R0` and the catalog rows span the space, then
every output of `solve_attitude` is exactly `R0ᵀ`. -/
lemma solve_recovers {m n : ℕ} (R0 : Matrix (Fin n) (Fin n) ℝ)
    (catalog : Matrix (Fin m) (Fin n) ℝ) (hR0 : R0ᵀ * R0 = 1)
    (hspan : ∀ v : Fin n → ℝ, catalog.mulVec v = 0 → v = 0)
    {R : Matrix (Fin n) (Fin n) ℝ}
    (h : solve_attitude (catalog * R0ᵀ) catalog R) : R = R0ᵀ := by
  obtain ⟨U, S, Vt, hsvd, rfl⟩ := h
  obtain ⟨hU, hVt, hdiag, hnn, hdesc, hdec⟩ := hsvd
  set M := catalogᵀ * catalog with hMdef
  have hH : attitudeH (catalog * R0ᵀ) catalog = R0 * M := attitudeH_rotated R0 catalog
  rw [hH] at hdec
  have hVV : Vt * Vtᵀ = 1 := Matrix.mul_eq_one_comm.mp hVt
  have hMsym : Mᵀ = M := by
    simp [hMdef, Matrix.transpose_mul]
  have hMpsd : M.PosSemidef := gram_posSemidef catalog
  have hMpd : M.PosDef := gram_posDef catalog hspan
  have hSpsd : S.PosSemidef := by
    rw [eq_diagonal_of_offdiag hdiag]
    exact Matrix.posSemidef_diagonal_iff.mpr hnn
  have hSymPsd : (Vtᵀ * S * Vt).PosSemidef := by
    have h2 := hSpsd.conjTranspose_mul_mul_same Vt
    rwa [Matrix.conjTranspose_eq_transpose_of_trivial] at h2
  have hStr : Sᵀ = S := by
    rw [eq_diagonal_of_offdiag hdiag]
    exact Matrix.diagonal_transpose _
  have hsq : M ^ 2 = (Vtᵀ * S * Vt) ^ 2 := by
    have h1 : (R0 * M)ᵀ * (R0 * M) = M ^ 2 := by
      calc (R0 * M)ᵀ * (R0 * M) = Mᵀ * (R0ᵀ * R0) * M := by
            simp [Matrix.transpose_mul, Matrix.mul_assoc]
        _ = M ^ 2 := by rw [hR0, Matrix.mul_one, hMsym, pow_two]
    have h2 : (U * S * Vt)ᵀ * (U * S * Vt) = (Vtᵀ * S * Vt) ^ 2 := by
      calc (U * S * Vt)ᵀ * (U * S * Vt)
          = Vtᵀ * Sᵀ * (Uᵀ * U) * (S * Vt) := by
            simp [Matrix.transpose_mul, Matrix.mul_assoc]
        _ = Vtᵀ * S * (S * Vt) := by rw [hU, Matrix.mul_one, hStr]
        _ = Vtᵀ * S * ((Vt * Vtᵀ) * (S * Vt)) := by rw [hVV, Matrix.one_mul]
        _ = (Vtᵀ * S * Vt) ^ 2 := by rw [pow_two]; simp [Matrix.mul_assoc]
    rw [← h1, ← h2, hdec]
  have hMSym : M = Vtᵀ * S * Vt := hMpsd.eq_of_sq_eq_sq hSymPsd hsq
  have hfin : (U * Vt) * M = R0 * M := by
    calc (U * Vt) * M = U * (Vt * Vtᵀ) * (S * Vt) := by
          rw [hMSym]; simp [Matrix.mul_assoc]
      _ = U * S * Vt := by rw [hVV, Matrix.mul_one, Matrix.mul_assoc]
      _ = R0 * M := hdec.symm
  have hcancel : U * Vt = R0 := hMpd.isUnit.mul_right_cancel hfin
  rw [← hcancel, Matrix.transpose_mul]

/-! ### Facts about the planar rotation matrices -/

lemma rot2_orthogonal (t : ℝ) : (rot2 t)ᵀ * rot2 t = 1 := by
  ext i j
  fin_cases i <;> fin_cases j <;>
    simp [rot2, Matrix.mul_apply, Fin.sum_univ_succ] <;>
    ring_nf <;> nlinarith [Real.sin_sq_add_cos_sq t]

lemma rot2_transpose (t : ℝ) : (rot2 t)ᵀ = rot2 (-t) := by
  ext i j
  fin_cases i <;> fin_cases j <;> simp [rot2]

lemma rot2_det (t : ℝ) : (rot2 t).det = 1 := by
  simp [rot2, Matrix.det_fin_two_of]
  nlinarith [Real.sin_sq_add_cos_sq t]

lemma rot2_pi_div_two : rot2 (Real.pi / 2) = Rq := by
  ext i j
  fin_cases i <;> fin_cases j <;> simp [rot2, Rq]

lemma Rq_orthogonal : Rqᵀ * Rq = 1 := by
  ext i j
  fin_cases i <;> fin_cases j <;> simp [Rq, Matrix.mul_apply, Fin.sum_univ_succ]

lemma Rq_det : Rq.det = 1 := by
  simp [Rq, Matrix.det_fin_two_of]

/-! ### The normalized 2D catalog -/

lemma sqrt3_sq : Real.sqrt 3 ^ 2 = 3 := Real.sq_sqrt (by norm_num)

/-- Every row of the raw 2D catalog already has unit norm. -/
lemma catalogRaw_rowNorm (i : Fin 5) : rowNorm (catalogRaw i) = 1 := by
  have h1 : (1 : ℝ) / 4 + (Real.sqrt 3 / 2) ^ 2 = 1 := by
    rw [div_pow, sqrt3_sq]; norm_num
  fin_cases i <;> rw [rowNorm, Fin.sum_univ_two] <;> simp [catalogRaw] <;>
    norm_num [h1]

/-- The normalization step leaves the raw 2D catalog unchanged. -/
lemma catalogN_eq : catalogN = catalogRaw := by
  ext i j
  show normalizeRow (catalogRaw i) j = catalogRaw i j
  rw [normalizeRow, catalogRaw_rowNorm i, div_one]

lemma catalogRaw_gram : catalogRawᵀ * catalogRaw = !![5 / 2, 0; 0, 5 / 2] := by
  have h3 : Real.sqrt 3 * Real.sqrt 3 = 3 := Real.mul_self_sqrt (by norm_num)
  ext i j
  fin_cases i <;> fin_cases j <;>
    simp [catalogRaw, Matrix.mul_apply, Matrix.transpose_apply, Fin.sum_univ_five,
      Matrix.vecHead, Matrix.vecTail, Function.comp] <;>
    nlinarith [h3]

lemma catalogN_span : ∀ v : Fin 2 → ℝ, catalogN.mulVec v = 0 → v = 0 := by
  intro v hv
  rw [catalogN_eq] at hv
  have h0 := congrFun hv 0
  have h4 := congrFun hv 4
  simp [Matrix.mulVec, dotProduct, catalogRaw, Fin.sum_univ_two] at h0 h4
  funext j
  fin_cases j <;> simp [h0, h4]

lemma cat3_span : ∀ v : Fin 2 → ℝ, cat3.mulVec v = 0 → v = 0 := by
  intro v hv
  have h0 := congrFun hv 0
  have h1 := congrFun hv 1
  simp [Matrix.mulVec, dotProduct, cat3, Fin.sum_univ_two] at h0 h1
  funext j
  fin_cases j <;> simp [h0, h1]

/-! ### Concrete solver runs, each exhibited through an explicit SVD -/

lemma attitudeH_obs1 : attitudeH obs1 cat1 = !![1, 0; 0, -1] := by
  ext i j
  fin_cases i <;> fin_cases j <;>
    simp [attitudeH, obs1, cat1, Matrix.mul_apply, Matrix.transpose_apply,
      Fin.sum_univ_two, Matrix.vecHead, Matrix.vecTail, Function.comp]

/-- A run of `solve_attitude` on the properness counterexample input,
through the SVD `H = 1 * 1 * H` of the orthogonal matrix `H`. -/
lemma solve1 : solve_attitude obs1 cat1 !![1, 0; 0, -1] := by
  refine ⟨1, 1, !![1, 0; 0, -1], ⟨by simp, ?_, ?_, ?_, ?_, ?_⟩, ?_⟩
  · ext i j
    fin_cases i <;> fin_cases j <;>
      simp [Matrix.mul_apply, Matrix.transpose_apply, Fin.sum_univ_two,
        Matrix.vecHead, Matrix.vecTail, Function.comp]
  · intro i j hij
    exact Matrix.one_apply_ne hij
  · intro i
    simp
  · intro i j hij
    simp
  · rw [attitudeH_obs1, Matrix.one_mul, Matrix.one_mul]
  · ext i j
    fin_cases i <;> fin_cases j <;>
      simp [Matrix.transpose_apply, Matrix.vecHead, Matrix.vecTail, Function.comp]

lemma attitudeH_obs4 : attitudeH obs4 cat4 = !![0, 0; 1, 0] := by
  ext i j
  fin_cases i <;> fin_cases j <;>
    simp [attitudeH, obs4, cat4, Matrix.mul_apply, Matrix.transpose_apply,
      Fin.sum_univ_two, Matrix.vecHead, Matrix.vecTail, Function.comp]

/-- A run of `solve_attitude` on the degenerate input (zero observed
vector, collinear references): the code still produces a result. -/
lemma solve4 : solve_attitude obs4 cat4 !![0, 1; 1, 0] := by
  refine ⟨!![0, 1; 1, 0], !![1, 0; 0, 0], 1, ⟨?_, by simp, ?_, ?_, ?_, ?_⟩, ?_⟩
  · ext i j
    fin_cases i <;> fin_cases j <;>
      simp [Matrix.mul_apply, Matrix.transpose_apply, Fin.sum_univ_two,
        Matrix.vecHead, Matrix.vecTail, Function.comp]
  · intro i j hij
    fin_cases i <;> fin_cases j <;> simp_all
  · intro i
    fin_cases i <;> norm_num
  · intro i j hij
    fin_cases i <;> fin_cases j <;> simp_all
  · rw [attitudeH_obs4, Matrix.mul_one]
    ext i j
    fin_cases i <;> fin_cases j <;>
      simp [Matrix.mul_apply, Matrix.transpose_apply, Fin.sum_univ_two,
        Matrix.vecHead, Matrix.vecTail, Function.comp]
  · ext i j
    fin_cases i <;> fin_cases j <;>
      simp [Matrix.transpose_apply, Matrix.vecHead, Matrix.vecTail, Function.comp]

/-- A run of `solve_attitude` on the identity input. -/
lemma solve_id : solve_attitude (1 : Matrix (Fin 2) (Fin 2) ℝ) 1 1 := by
  refine ⟨1, 1, 1, ⟨by simp, by simp, ?_, ?_, ?_, ?_⟩, by simp⟩
  · intro i j hij
    exact Matrix.one_apply_ne hij
  · intro i
    simp
  · intro i j hij
    simp
  · simp [attitudeH]

lemma attitudeH_obs3 : attitudeH obs3 cat3 = !![-(12 / 25), -(41 / 25); 34 / 25, 12 / 25] := by
  ext i j
  fin_cases i <;> fin_cases j <;>
    simp [attitudeH, obs3, cat3, Rq, Matrix.mul_apply, Matrix.transpose_apply,
      Fin.sum_univ_three, Fin.sum_univ_two, Matrix.vecHead, Matrix.vecTail,
      Function.comp] <;>
    norm_num

/-- A run of `solve_attitude` on the rotated three-star catalog, through
an explicit rational SVD of the cross-covariance. -/
lemma solve3 : solve_attitude obs3 cat3 !![0, 1; -1, 0] := by
  refine ⟨!![-(4 / 5), 3 / 5; 3 / 5, 4 / 5], !![2, 0; 0, 1],
    !![3 / 5, 4 / 5; 4 / 5, -(3 / 5)], ⟨?_, ?_, ?_, ?_, ?_, ?_⟩, ?_⟩
  · ext i j
    fin_cases i <;> fin_cases j <;>
      simp [Matrix.mul_apply, Matrix.transpose_apply, Fin.sum_univ_two,
        Matrix.vecHead, Matrix.vecTail, Function.comp] <;> norm_num
  · ext i j
    fin_cases i <;> fin_cases j <;>
      simp [Matrix.mul_apply, Matrix.transpose_apply, Fin.sum_univ_two,
        Matrix.vecHead, Matrix.vecTail, Function.comp] <;> norm_num
  · intro i j hij
    fin_cases i <;> fin_cases j <;> simp_all
  · intro i
    fin_cases i <;> norm_num
  · intro i j hij
    fin_cases i <;> fin_cases j <;> simp_all
  · rw [attitudeH_obs3]
    ext i j
    fin_cases i <;> fin_cases j <;>
      simp [Matrix.mul_apply, Matrix.transpose_apply, Fin.sum_univ_two,
        Matrix.vecHead, Matrix.vecTail, Function.comp] <;> norm_num
  · ext i j
    fin_cases i <;> fin_cases j <;>
      simp [Matrix.mul_apply, Matrix.transpose_apply, Fin.sum_univ_two,
        Matrix.vecHead, Matrix.vecTail, Function.comp] <;> norm_num

/-- A run of `solve_attitude` on the 30-degree 2D scenario, through the
SVD carried by the rotation itself. -/
lemma solve30 : solve_attitude observed30 catalogN (rot2 (-(Real.pi / 6))) := by
  refine ⟨rot2 (Real.pi / 6), !![5 / 2, 0; 0, 5 / 2], 1,
    ⟨rot2_orthogonal _, by simp, ?_, ?_, ?_, ?_⟩, ?_⟩
  · intro i j hij
    fin_cases i <;> fin_cases j <;> simp_all
  · intro i
    fin_cases i <;> norm_num
  · intro i j hij
    fin_cases i <;> fin_cases j <;> simp_all
  · show attitudeH (catalogN * (rot2 (Real.pi / 6))ᵀ) catalogN = _
    rw [attitudeH_rotated, catalogN_eq, catalogRaw_gram, Matrix.mul_one]
  · rw [Matrix.transpose_one, Matrix.one_mul, rot2_transpose]

/-! ### Claim theorems -/

/-- C1, counterexample: the input `obs1`/`cat1` is valid (unit rows, two
pairs in 2D, references not collinear), yet every possible output of
`solve_attitude` on it has determinant `-1`: the code applies no sign(det)
correction, so the result is a reflection, not a proper rotation. -/
theorem C1_counterexample :
    ((∀ i, obs1 i ⬝ᵥ obs1 i = 1) ∧ (∀ i, cat1 i ⬝ᵥ cat1 i = 1) ∧
      cat1 0 0 * cat1 1 1 - cat1 0 1 * cat1 1 0 ≠ 0) ∧
    (∃ R, solve_attitude obs1 cat1 R ∧ R.det = -1) ∧
    (∀ R, solve_attitude obs1 cat1 R → R.det = -1) := by
  refine ⟨⟨?_, ?_, ?_⟩, ⟨!![1, 0; 0, -1], solve1, ?_⟩, ?_⟩
  · intro i
    fin_cases i <;> simp [obs1, dotProduct, Fin.sum_univ_two]
  · intro i
    fin_cases i <;> simp [cat1, dotProduct, Fin.sum_univ_two]
  · simp [cat1]
  · rw [Matrix.det_fin_two_of]; norm_num
  · intro R h
    refine solve_det_neg h ?_
    rw [attitudeH_obs1, Matrix.det_fin_two_of]
    norm_num

/-- C1, amended: for every input, every matrix returned by
`solve_attitude` is orthonormal and its determinant is `1` or `-1`, but
no sign(det) correction is applied: whenever the cross-covariance matrix
has negative determinant the returned matrix is a reflection with
determinant `-1`. -/
theorem C1_theorem {m n : ℕ} (observed catalog : Matrix (Fin m) (Fin n) ℝ)
    (R : Matrix (Fin n) (Fin n) ℝ) (h : solve_attitude observed catalog R) :
    Rᵀ * R = 1 ∧ (R.det = 1 ∨ R.det = -1) ∧
      ((attitudeH observed catalog).det < 0 → R.det = -1) :=
  ⟨solve_orth h, solve_det_pm h, fun hneg => solve_det_neg h hneg⟩

/-- C1, witness: the amended theorem applied to the concrete reflection
input. -/
theorem C1_theorem_witness :
    solve_attitude obs1 cat1 !![1, 0; 0, -1] ∧
      ((!![1, 0; 0, -1] : Matrix (Fin 2) (Fin 2) ℝ)ᵀ * !![1, 0; 0, -1] = 1 ∧
        ((!![1, 0; 0, -1] : Matrix (Fin 2) (Fin 2) ℝ).det = 1 ∨
          (!![1, 0; 0, -1] : Matrix (Fin 2) (Fin 2) ℝ).det = -1) ∧
        ((attitudeH obs1 cat1).det < 0 →
          (!![1, 0; 0, -1] : Matrix (Fin 2) (Fin 2) ℝ).det = -1)) :=
  ⟨solve1, C1_theorem obs1 cat1 _ solve1⟩

/-- C4, counterexample: on an input whose first observed vector is the
zero vector (magnitude below any tolerance) and whose reference vectors
are all collinear, `solve_attitude` does not fail: it computes the SVD
and produces a result.  No `InvalidInputError` or
`DegenerateGeometryError` exists anywhere in the code. -/
theorem C4_counterexample :
    (∀ j, obs4 0 j = 0) ∧ (∀ j, cat4 0 j = cat4 1 j) ∧
      ∃ R, solve_attitude obs4 cat4 R := by
  refine ⟨?_, ?_, ⟨!![0, 1; 1, 0], solve4⟩⟩
  · intro j
    fin_cases j <;> simp [obs4]
  · intro j
    fin_cases j <;> simp [cat4]

/-- C4, amended: `solve_attitude` performs no input validation and raises
no error: even on the degenerate input (zero-magnitude observed vector,
collinear references) every run returns a well-formed orthogonal matrix
rather than aborting. -/
theorem C4_theorem (R : Matrix (Fin 2) (Fin 2) ℝ)
    (h : solve_attitude obs4 cat4 R) : Rᵀ * R = 1 :=
  solve_orth h

/-- C4, witness: the amended theorem applied to the exhibited run on the
degenerate input. -/
theorem C4_theorem_witness :
    solve_attitude obs4 cat4 !![0, 1; 1, 0] ∧
      ((!![0, 1; 1, 0] : Matrix (Fin 2) (Fin 2) ℝ)ᵀ * !![0, 1; 1, 0] = 1) :=
  ⟨solve4, C4_theorem _ solve4⟩

/-- C5: the cross-covariance `H = observed.T @ catalog` computed inside
`solve_attitude` equals the sum over correspondences of the outer products
`observedᵢ ⊗ referenceᵢ`, i.e. the spec form
`B = Σ wᵢ · observedᵢ ⊗ referenceᵢ` with uniform weights `wᵢ = 1`. -/
theorem C5_theorem {m n : ℕ} (observed catalog : Matrix (Fin m) (Fin n) ℝ) :
    attitudeH observed catalog =
      specCrossCovariance (fun _ => 1) observed catalog := by
  ext a b
  simp [attitudeH, specCrossCovariance, Matrix.mul_apply,
    Matrix.transpose_apply, Matrix.sum_apply, Matrix.vecMulVec_apply]

/-- C9: whenever the cross-covariance matrix admits an SVD with orthogonal
factors, the matrix `Vt.T @ U.T` returned by `solve_attitude` satisfies
`Rᵀ * R = 1`, regardless of the sign of its determinant. -/
theorem C9_theorem {m n : ℕ} (observed catalog : Matrix (Fin m) (Fin n) ℝ)
    (R : Matrix (Fin n) (Fin n) ℝ) (h : solve_attitude observed catalog R) :
    Rᵀ * R = 1 :=
  solve_orth h

/-- C9, witness: orthogonality of the output on the identity instance. -/
theorem C9_theorem_witness :
    solve_attitude (1 : Matrix (Fin 2) (Fin 2) ℝ) 1 1 ∧
      ((1 : Matrix (Fin 2) (Fin 2) ℝ)ᵀ * 1 = 1) :=
  ⟨solve_id, C9_theorem 1 1 1 solve_id⟩

/-- C2, counterexample: `Rq` is a proper rotation (by 90 degrees), `cat3`
holds three non-collinear unit vectors, and `obs3` is `cat3` rotated by
`Rq`; yet `solve_attitude` can return a rotation at angular distance π
from `Rq` (the trace of `Rᵀ * Rq` is `-2`, i.e. the cosine of the
angular distance is `-1`, far below `cos 1e-6`): the solver recovers the
inverse of the applied rotation, not the rotation itself. -/
theorem C2_counterexample :
    Rqᵀ * Rq = 1 ∧ Rq.det = 1 ∧ (∀ i, cat3 i ⬝ᵥ cat3 i = 1) ∧
      obs3 = cat3 * Rqᵀ ∧
      ∃ R, solve_attitude obs3 cat3 R ∧ (Rᵀ * Rq).trace = -2 ∧
        (Rᵀ * Rq).trace / 2 < Real.cos 1e-6 := by
  have hcos : (0 : ℝ) < Real.cos 1e-6 := by
    apply Real.cos_pos_of_mem_Ioo
    constructor
    · nlinarith [Real.pi_pos]
    · nlinarith [Real.pi_gt_three]
  have htr : ((!![0, 1; -1, 0] : Matrix (Fin 2) (Fin 2) ℝ)ᵀ * Rq).trace = -2 := by
    have hprod : (!![0, 1; -1, 0] : Matrix (Fin 2) (Fin 2) ℝ)ᵀ * Rq =
        !![-1, 0; 0, -1] := by
      ext i j
      fin_cases i <;> fin_cases j <;>
        simp [Rq, Matrix.mul_apply, Matrix.transpose_apply, Fin.sum_univ_two,
          Matrix.vecHead, Matrix.vecTail, Function.comp]
    rw [hprod, Matrix.trace_fin_two_of]
    norm_num
  refine ⟨Rq_orthogonal, Rq_det, ?_, rfl, ⟨!![0, 1; -1, 0], solve3, htr, ?_⟩⟩
  · intro i
    fin_cases i <;> norm_num [cat3, dotProduct, Fin.sum_univ_two]
  · rw [htr]
    linarith

/-- C2, amended: for a proper rotation `R0` and a catalog of at least
three unit vectors whose rows span the space, solving on the rotated
catalog recovers `R0ᵀ = R0⁻¹` exactly (hence within any angular
tolerance) — the inverse of the applied rotation, not `R0` itself. -/
theorem C2_theorem {m n : ℕ} (hm : 3 ≤ m) (R0 : Matrix (Fin n) (Fin n) ℝ)
    (catalog : Matrix (Fin m) (Fin n) ℝ) (hR0o : R0ᵀ * R0 = 1)
    (hR0d : R0.det = 1)
    (hspan : ∀ v : Fin n → ℝ, catalog.mulVec v = 0 → v = 0)
    (R : Matrix (Fin n) (Fin n) ℝ)
    (h : solve_attitude (catalog * R0ᵀ) catalog R) : R = R0ᵀ :=
  solve_recovers R0 catalog hR0o hspan h

/-- C2, witness: the amended theorem applied to the three-star catalog
rotated by 90 degrees. -/
theorem C2_theorem_witness :
    (3 ≤ 3) ∧ Rqᵀ * Rq = 1 ∧ Rq.det = 1 ∧
      (∀ v : Fin 2 → ℝ, cat3.mulVec v = 0 → v = 0) ∧
      solve_attitude (cat3 * Rqᵀ) cat3 !![0, 1; -1, 0] ∧
      (!![0, 1; -1, 0] : Matrix (Fin 2) (Fin 2) ℝ) = Rqᵀ :=
  ⟨le_refl 3, Rq_orthogonal, Rq_det, cat3_span, solve3,
    C2_theorem (le_refl 3) Rq cat3 Rq_orthogonal Rq_det cat3_span _ solve3⟩

/-- C8: for a noiseless input produced by applying a proper rotation `R0`
to a spanning catalog, `solve_attitude` returns `R0ᵀ = R0⁻¹`, the rotation
mapping each observed vector back onto its catalog vector (applying the
result to the observed rows reproduces the catalog). -/
theorem C8_theorem {m n : ℕ} (R0 : Matrix (Fin n) (Fin n) ℝ)
    (catalog : Matrix (Fin m) (Fin n) ℝ) (hR0o : R0ᵀ * R0 = 1)
    (hR0d : R0.det = 1)
    (hspan : ∀ v : Fin n → ℝ, catalog.mulVec v = 0 → v = 0)
    (R : Matrix (Fin n) (Fin n) ℝ)
    (h : solve_attitude (catalog * R0ᵀ) catalog R) :
    R = R0ᵀ ∧ (catalog * R0ᵀ) * Rᵀ = catalog := by
  have hR := solve_recovers R0 catalog hR0o hspan h
  refine ⟨hR, ?_⟩
  rw [hR, Matrix.transpose_transpose, Matrix.mul_assoc, hR0o, Matrix.mul_one]

/-- C8, witness: the theorem applied to the three-star catalog rotated by
90 degrees. -/
theorem C8_theorem_witness :
    solve_attitude (cat3 * Rqᵀ) cat3 !![0, 1; -1, 0] ∧
      ((!![0, 1; -1, 0] : Matrix (Fin 2) (Fin 2) ℝ) = Rqᵀ ∧
        (cat3 * Rqᵀ) * (!![0, 1; -1, 0] : Matrix (Fin 2) (Fin 2) ℝ)ᵀ = cat3) :=
  ⟨solve3, C8_theorem Rq cat3 Rq_orthogonal Rq_det cat3_span _ solve3⟩

/-- Every output of `solve_attitude` on the 30-degree 2D scenario is the
rotation by minus 30 degrees. -/
lemma solve30_eq (R : Matrix (Fin 2) (Fin 2) ℝ)
    (h : solve_attitude observed30 catalogN R) : R = rot2 (-(Real.pi / 6)) := by
  have hrec : R = (rot2 (Real.pi / 6))ᵀ :=
    solve_recovers (rot2 (Real.pi / 6)) catalogN (rot2_orthogonal _)
      catalogN_span h
  rwa [rot2_transpose] at hrec

/-- C3, counterexample: on the concrete 2D catalog rotated by 30 degrees
the solve has a result, but no result is a rotation by an angle within
0.01 degrees of +30 degrees: the extracted angle is -30 degrees (the
solver returns the inverse rotation). -/
theorem C3_counterexample :
    (∃ R, solve_attitude observed30 catalogN R) ∧
      ∀ R, solve_attitude observed30 catalogN R →
        ¬ ∃ t : ℝ, |t - Real.pi / 6| ≤ Real.pi / 18000 ∧ R = rot2 t := by
  refine ⟨⟨_, solve30⟩, ?_⟩
  rintro R hR ⟨t, ht, hRt⟩
  have heq : rot2 t = rot2 (-(Real.pi / 6)) := by
    rw [← hRt, solve30_eq R hR]
  have hsin : Real.sin t = -(1 / 2) := by
    have h10 := congrFun (congrFun heq 1) 0
    simpa [rot2, Real.sin_pi_div_six] using h10
  obtain ⟨hlo, hhi⟩ := abs_le.mp ht
  have hpos : 0 < Real.sin t := by
    apply Real.sin_pos_of_pos_of_lt_pi
    · nlinarith [Real.pi_pos]
    · nlinarith [Real.pi_pos]
  rw [hsin] at hpos
  linarith

/-- C3, amended: solving the concrete 2D scenario yields exactly the
rotation by -30 degrees, i.e. the extracted rotation angle is -30.00
degrees (within any tolerance), the negative of the applied angle. -/
theorem C3_theorem (R : Matrix (Fin 2) (Fin 2) ℝ)
    (h : solve_attitude observed30 catalogN R) : R = rot2 (-(Real.pi / 6)) :=
  solve30_eq R h

/-- C3, witness: the amended theorem applied to the exhibited run. -/
theorem C3_theorem_witness :
    solve_attitude observed30 catalogN (rot2 (-(Real.pi / 6))) ∧
      rot2 (-(Real.pi / 6)) = rot2 (-(Real.pi / 6)) :=
  ⟨solve30, C3_theorem _ solve30⟩

/-- C6: when every observed vector equals its reference vector and the
(unit) reference rows span the space, every output of `solve_attitude` is
the identity matrix, and the angular residual of every correspondence is
zero. -/
theorem C6_theorem {m n : ℕ} (catalog : Matrix (Fin m) (Fin n) ℝ)
    (hspan : ∀ v : Fin n → ℝ, catalog.mulVec v = 0 → v = 0)
    (hunit : ∀ i, catalog i ⬝ᵥ catalog i = 1)
    (R : Matrix (Fin n) (Fin n) ℝ) (h : solve_attitude catalog catalog R) :
    R = 1 ∧ ∀ i, angularResidual R (catalog i) (catalog i) = 0 := by
  have hobs : catalog * (1 : Matrix (Fin n) (Fin n) ℝ)ᵀ = catalog := by
    rw [Matrix.transpose_one, Matrix.mul_one]
  have hR : R = (1 : Matrix (Fin n) (Fin n) ℝ)ᵀ := by
    refine solve_recovers 1 catalog (by simp) hspan ?_
    rwa [hobs]
  rw [Matrix.transpose_one] at hR
  subst hR
  refine ⟨rfl, fun i => ?_⟩
  rw [angularResidual, Matrix.one_mulVec, hunit i]
  have hc : clamp 1 = 1 := by
    rw [clamp]
    norm_num
  rw [hc, Real.arccos_one]

/-- C6, witness: the theorem applied to the 2D identity correspondence
set. -/
theorem C6_theorem_witness :
    solve_attitude (1 : Matrix (Fin 2) (Fin 2) ℝ) 1 1 ∧
      ((1 : Matrix (Fin 2) (Fin 2) ℝ) = 1 ∧
        ∀ i : Fin 2, angularResidual 1 ((1 : Matrix (Fin 2) (Fin 2) ℝ) i)
          ((1 : Matrix (Fin 2) (Fin 2) ℝ) i) = 0) := by
  have hspan : ∀ v : Fin 2 → ℝ, (1 : Matrix (Fin 2) (Fin 2) ℝ).mulVec v = 0 → v = 0 := by
    intro v hv
    rwa [Matrix.one_mulVec] at hv
  have hunit : ∀ i : Fin 2,
      (1 : Matrix (Fin 2) (Fin 2) ℝ) i ⬝ᵥ (1 : Matrix (Fin 2) (Fin 2) ℝ) i = 1 := by
    intro i
    fin_cases i <;> simp [Matrix.one_apply, dotProduct, Fin.sum_univ_two]
  exact ⟨solve_id, C6_theorem 1 hspan hunit 1 solve_id⟩

/-- C7: the residual report is total and well formed: the residual list
has one entry per correspondence, each entry is arccos of the clamped dot
product of the rotated observed vector with its reference, clamping always
lands in the arccos domain `[-1, 1]`, every residual lies in `[0, π]`, and
the aggregate RMS residual is defined and nonnegative for every input. -/
theorem C7_theorem {n : ℕ} (Rm : Matrix (Fin n) (Fin n) ℝ)
    (pairs : List ((Fin n → ℝ) × (Fin n → ℝ))) :
    residualList Rm pairs =
        pairs.map (fun p => Real.arccos (clamp (Rm.mulVec p.1 ⬝ᵥ p.2))) ∧
      (residualList Rm pairs).length = pairs.length ∧
      (∀ r ∈ residualList Rm pairs, 0 ≤ r ∧ r ≤ Real.pi) ∧
      (∀ x : ℝ, -1 ≤ clamp x ∧ clamp x ≤ 1) ∧
      0 ≤ rmsResidual Rm pairs := by
  refine ⟨rfl, List.length_map _ _, ?_, ?_, Real.sqrt_nonneg _⟩
  · intro r hr
    obtain ⟨p, -, rfl⟩ := List.mem_map.mp hr
    exact ⟨Real.arccos_nonneg _, Real.arccos_le_pi _⟩
  · intro x
    refine ⟨le_max_left _ _, max_le (by norm_num) (min_le_left _ _)⟩

/-- C7, witness: the theorem evaluated on a concrete report. -/
theorem C7_theorem_witness :
    0 ≤ rmsResidual (1 : Matrix (Fin 2) (Fin 2) ℝ) [] :=
  (C7_theorem 1 []).2.2.2.2

/-- C10: in exact arithmetic every output row of `radec_to_unitvec` has
Euclidean norm exactly 1, and every row of the 2D catalog after the
normalization step has Euclidean norm 1. -/
theorem C10_theorem :
    (∀ ra_deg dec_deg : ℝ, rowNorm (radec_to_unitvec ra_deg dec_deg) = 1) ∧
      ∀ i, rowNorm (catalogN i) = 1 := by
  constructor
  · intro ra dec
    rw [rowNorm, Fin.sum_univ_three]
    have h0 : radec_to_unitvec ra dec 0 =
        Real.cos (dec * (Real.pi / 180)) * Real.cos (ra * (Real.pi / 180)) := rfl
    have h1 : radec_to_unitvec ra dec 1 =
        Real.cos (dec * (Real.pi / 180)) * Real.sin (ra * (Real.pi / 180)) := rfl
    have h2 : radec_to_unitvec ra dec 2 =
        Real.sin (dec * (Real.pi / 180)) := rfl
    rw [h0, h1, h2]
    have key : (Real.cos (dec * (Real.pi / 180)) * Real.cos (ra * (Real.pi / 180))) ^ 2 +
        (Real.cos (dec * (Real.pi / 180)) * Real.sin (ra * (Real.pi / 180))) ^ 2 +
        Real.sin (dec * (Real.pi / 180)) ^ 2 = 1 := by
      nlinarith [Real.sin_sq_add_cos_sq (ra * (Real.pi / 180)),
        Real.sin_sq_add_cos_sq (dec * (Real.pi / 180))]
    rw [key, Real.sqrt_one]
  · intro i
    have : catalogN i = catalogRaw i := by rw [catalogN_eq]
    rw [this]
    exact catalogRaw_rowNorm i

end Smbdmp
